import Mathlib

/-!
Verification of the System Health Monitor (src/system_monitor.py).

The pure logic of the monitor is embedded shallowly:
- percentages and the float values flowing through the program are exact
  rationals (all concrete values in the properties below are exactly
  representable as binary doubles, so exact rational arithmetic agrees
  with the Python float arithmetic on them);
- Python integers are `Int`;
- the SQLite connection is modelled as committed and pending row lists,
  where INSERT appends to the open implicit transaction and COMMIT
  publishes it atomically (the collaborator contract of sqlite3);
- the sampling loop's timing is idealized exactly as in the design
  document's scenarios: tick work takes no time and each sleep lasts
  `max 1 interval` seconds, so tick `k` completes at `k * max 1 interval`.
-/

/-- Python `float.is_integer()` on an exact rational value: the value is a
whole number. -/
def pyIsInt (q : ℚ) : Prop := (⌊q⌋ : ℚ) = q

instance (q : ℚ) : Decidable (pyIsInt q) :=
  inferInstanceAs (Decidable ((⌊q⌋ : ℚ) = q))

/-- Python `int()` applied to a float value: truncation toward zero. -/
def pyInt (q : ℚ) : ℤ := if 0 ≤ q then ⌊q⌋ else ⌈q⌉

/-- Rounding to the nearest integer with ties to even, as CPython float
formatting does when a decimal digit must be dropped. -/
def roundHalfEven (q : ℚ) : ℤ :=
  if q - ⌊q⌋ = 1 / 2 then (if ⌊q⌋ % 2 = 0 then ⌊q⌋ else ⌊q⌋ + 1) else round q

/-- Decimal rendering of a nonnegative number of tenths as "whole.tenth". -/
def fmtNatTenths (n : ℕ) : String :=
  toString (n / 10) ++ "." ++ toString (n % 10)

/-- The Python format specifier `:.1f` on an exact rational value: round to
one decimal place and always render that one decimal. -/
def fmtTenths (q : ℚ) : String :=
  let t := roundHalfEven (q * 10)
  if t < 0 then "-" ++ fmtNatTenths (-t).toNat else fmtNatTenths t.toNat

/-- Delta computation of `get_snapshot` (src/system_monitor.py lines 63-67):
both deltas are 0 when there are no previous counters, otherwise each is
`max(0, current - previous)`, independently for sent and recv. -/
def computeDeltas (prev : Option (ℤ × ℤ)) (curr_sent curr_recv : ℤ) : ℤ × ℤ :=
  match prev with
  | none => (0, 0)
  | some p => (max 0 (curr_sent - p.1), max 0 (curr_recv - p.2))

/-- Line 146 of `main`: `prev_net = (net_sent, net_recv)` -- the stored
previous counters are replaced by the current ones unconditionally. -/
def updatePrevNet (_prev : Option (ℤ × ℤ)) (curr_sent curr_recv : ℤ) :
    Option (ℤ × ℤ) :=
  some (curr_sent, curr_recv)

/-- The parsed command-line configuration (argparse declarations in `main`,
lines 85-95). `argparse` with `type=int` only enforces integrality. -/
structure Args where
  interval : ℤ
  duration : Option ℤ
  cpu_th : ℤ
  mem_th : ℤ
  disk_th : ℤ
  log_file : String
  log_max_bytes : ℤ
  log_backups : ℤ
  db : Option String

/-- The default flag values of `main` (lines 86-94). -/
def defaultArgs : Args :=
  ⟨5, none, 80, 80, 90, "logs/system_health.log", 1000000, 5, none⟩

/-- Startup path of `main` (lines 95-107): between argument parsing and the
sampling loop there is no validation of flag values, so every parsed
configuration is accepted and the loop is entered. -/
def startupCheck (a : Args) : Except String Args := Except.ok a

/-- One threshold comparison as written on lines 116, 119 and 122:
`value >= threshold`, an inclusive comparison of a float against an
integer threshold. -/
def breaches (v : ℚ) (th : ℤ) : Bool := decide ((th : ℚ) ≤ v)

/-- A row of the `events` table (ts TEXT, level TEXT, message TEXT). -/
structure EventRow where
  ts : String
  level : String
  message : String
deriving DecidableEq

/-- A row of the `metrics` table
(ts, cpu_pct, mem_pct, disk_pct, net_sent, net_recv). -/
structure MetricRow where
  ts : String
  cpu_pct : ℚ
  mem_pct : ℚ
  disk_pct : ℚ
  net_sent : ℤ
  net_recv : ℤ
deriving DecidableEq

/-- The breach log lines of `main` lines 116-124: the (level, message) of
each logger call made for the current tick, in source order. -/
def logBreachLines (a : Args) (cpu mem disk : ℚ) : List (String × String) :=
  (if (a.cpu_th : ℚ) ≤ cpu then
    [("WARNING", "High CPU Usage: " ++ fmtTenths cpu ++ "%")] else []) ++
  (if (a.mem_th : ℚ) ≤ mem then
    [("WARNING", "High Memory Usage: " ++ fmtTenths mem ++ "%")] else []) ++
  (if (a.disk_th : ℚ) ≤ disk then
    [("ERROR", "Disk Usage Critical: " ++ fmtTenths disk ++ "%")] else [])

/-- The metric row inserted on lines 132-133 of `main`: the tick timestamp,
the three raw percentages and the two raw cumulative counters. -/
def metricRow (now : String) (cpu mem disk : ℚ) (sent recv : ℤ) : MetricRow :=
  ⟨now, cpu, mem, disk, sent, recv⟩

/-- The event rows inserted on lines 134-143 of `main`, which re-evaluate
the three threshold conditions on the same snapshot values. -/
def dbEventRows (now : String) (a : Args) (cpu mem disk : ℚ) : List EventRow :=
  (if (a.cpu_th : ℚ) ≤ cpu then
    [⟨now, "WARNING", "High CPU Usage: " ++ fmtTenths cpu ++ "%"⟩] else []) ++
  (if (a.mem_th : ℚ) ≤ mem then
    [⟨now, "WARNING", "High Memory Usage: " ++ fmtTenths mem ++ "%"⟩] else []) ++
  (if (a.disk_th : ℚ) ≤ disk then
    [⟨now, "ERROR", "Disk Usage Critical: " ++ fmtTenths disk ++ "%"⟩] else [])

/-- The unit list `['B','KB','MB','GB','TB']` of `human_bytes`. -/
def unitName : ℕ → String
  | 0 => "B"
  | 1 => "KB"
  | 2 => "MB"
  | 3 => "GB"
  | _ => "TB"

/-- The division loop of `human_bytes` (lines 76-79):
`while f >= step and i < len(units)-1: f /= step; i += 1`. The index `i`
increases by one on every pass and the guard requires `i < 4`, so a fuel of
`4 - i` bounds the iterations exactly; the fuel-0 case is reached only when
the guard is false anyway. -/
def humanLoopAux : ℕ → ℚ → ℕ → ℚ × ℕ
  | 0, f, i => (f, i)
  | fuel + 1, f, i =>
    if 1024 ≤ f ∧ i < 4 then humanLoopAux fuel (f / 1024) (i + 1) else (f, i)

/-- The state (scaled value, unit index) of the division loop of
`human_bytes` when it finishes, for input `n`. -/
def humanState (n : ℤ) : ℚ × ℕ := humanLoopAux 4 (n : ℚ) 0

/-- `human_bytes` (lines 71-82): scale by 1024 while possible, then render
with no decimal when the scaled value is at least 10 or is whole, else with
one decimal place. -/
def human_bytes (n : ℤ) : String :=
  let p := humanState n
  if 10 ≤ p.1 ∨ pyIsInt p.1 then toString (pyInt p.1) ++ " " ++ unitName p.2
  else fmtTenths p.1 ++ " " ++ unitName p.2

/-- The set of tables at a SQLite location. -/
structure Schema where
  tables : List String
deriving DecidableEq

/-- `CREATE TABLE [IF NOT EXISTS] t`: errors exactly when the table already
exists and IF NOT EXISTS was not given; otherwise the table is present
afterwards and nothing is duplicated. -/
def createTable (ifNotExists : Bool) (t : String) (s : Schema) :
    Except String Schema :=
  if t ∈ s.tables then
    if ifNotExists then Except.ok s else Except.error "table already exists"
  else Except.ok ⟨s.tables ++ [t]⟩

/-- `init_db` (lines 29-50): create `metrics`, then `events`, both with
IF NOT EXISTS, then commit. -/
def init_db (s : Schema) : Except String Schema :=
  (createTable true "metrics" s).bind (createTable true "events")

/-- One statement executed on the SQLite connection. -/
inductive Op where
  | insertMetric : MetricRow → Op
  | insertEvent : EventRow → Op
  | commit : Op
deriving DecidableEq

/-- The SQLite connection as used by `main`: rows already committed
(visible after a crash) and the rows of the open implicit transaction. -/
structure Conn where
  committedMetrics : List MetricRow
  committedEvents : List EventRow
  pendingMetrics : List MetricRow
  pendingEvents : List EventRow
deriving DecidableEq

/-- Effect of one statement: INSERT appends to the open transaction;
`conn.commit()` atomically publishes the pending rows. -/
def execOp (c : Conn) : Op → Conn
  | Op.insertMetric r => { c with pendingMetrics := c.pendingMetrics ++ [r] }
  | Op.insertEvent r => { c with pendingEvents := c.pendingEvents ++ [r] }
  | Op.commit =>
    ⟨c.committedMetrics ++ c.pendingMetrics,
      c.committedEvents ++ c.pendingEvents, [], []⟩

/-- Run a list of statements in order. -/
def runOps (c : Conn) (l : List Op) : Conn := l.foldl execOp c

/-- The persistence statements of one tick (lines 130-144 of `main`): the
metric insert, then the conditional event inserts, then a single commit. -/
def tickOps (now : String) (a : Args) (cpu mem disk : ℚ) (sent recv : ℤ) :
    List Op :=
  Op.insertMetric (metricRow now cpu mem disk sent recv) ::
    ((dbEventRows now a cpu mem disk).map Op.insertEvent ++ [Op.commit])

/-- Tick counting of the loop (lines 108-152) under the idealized timing of
the design scenarios: tick `k` completes at time `k * s` where `s` is the
sleep length, and the duration check of line 149 runs after the tick's
dispatch. The fuel only bounds the recursion; at fuel 0 the returned count
is the same `k + 1` either way. -/
def loopAux (d s : ℤ) : ℕ → ℕ → ℕ
  | 0, k => k + 1
  | fuel + 1, k =>
    if d ≤ (k : ℤ) * s then k + 1 else loopAux d s fuel (k + 1)

/-- Number of ticks the loop executes when a duration `d` is configured and
the interval flag is `i`; the sleep is `max 1 i` (line 152). -/
def numTicks (d i : ℤ) : ℕ := loopAux d (max 1 i) d.toNat 0

/-- C1: for every pair of previous and current cumulative network counters,
the computed delta for each of sent and recv independently equals
`max 0 (current - previous)`; with no previous counters both deltas are 0;
and after a tick the stored previous counters are unconditionally replaced
by the current ones, even when a reset clamps the delta to 0: with
prev = (1000, 1000) and curr = (200, 200) the delta is (0, 0) and prev
becomes (200, 200). -/
theorem delta_invariant :
    (∀ p_sent p_recv c_sent c_recv : ℤ,
      computeDeltas (some (p_sent, p_recv)) c_sent c_recv =
        (max 0 (c_sent - p_sent), max 0 (c_recv - p_recv))) ∧
    (∀ c_sent c_recv : ℤ, computeDeltas none c_sent c_recv = (0, 0)) ∧
    (∀ (prev : Option (ℤ × ℤ)) (c_sent c_recv : ℤ),
      updatePrevNet prev c_sent c_recv = some (c_sent, c_recv)) ∧
    computeDeltas (some (1000, 1000)) 200 200 = (0, 0) ∧
    updatePrevNet (some (1000, 1000)) 200 200 = some (200, 200) :=
  ⟨fun _ _ _ _ => rfl, fun _ _ => rfl, fun _ _ _ => rfl, by decide, rfl⟩

/-- C6: the threshold evaluator is monotonic in the threshold. For a fixed
metric value, raising the threshold never turns a non-breach into a breach,
and lowering it never turns a breach into a non-breach; the comparison is
inclusive. -/
theorem threshold_monotone (v : ℚ) (th th' : ℤ) :
    (th ≤ th' → breaches v th = false → breaches v th' = false) ∧
    (th' ≤ th → breaches v th = true → breaches v th' = true) := by
  constructor
  · intro hle hb
    simp only [breaches, decide_eq_false_iff_not, not_le] at hb ⊢
    exact lt_of_lt_of_le hb (by exact_mod_cast hle)
  · intro hle hb
    simp only [breaches, decide_eq_true_eq] at hb ⊢
    exact le_trans (by exact_mod_cast hle) hb

/-- Witness for `threshold_monotone` at value 50 with thresholds raised from
80 to 90, and at value 85 with thresholds lowered from 80 to 70. -/
theorem threshold_monotone_witness :
    breaches 50 90 = false ∧ breaches 85 70 = true := by
  constructor
  · exact (threshold_monotone 50 80 90).1 (by norm_num) (by norm_num [breaches])
  · exact (threshold_monotone 85 80 70).2 (by norm_num) (by norm_num [breaches])

/-- C5: threshold evaluation is inclusive -- a metric value equal to its
threshold breaches; the three checks are independent `if` statements, so
the number of events of a tick is the number of fired checks, between zero
and three (zero at 0/0/0, three at the equality point 80/80/90 of the
default thresholds); and under the default thresholds a tick with cpu
85.0, mem 50.0, disk 50.0 produces exactly one event -- severity WARNING
with message "High CPU Usage: 85.0%" -- in both the log sink and the
events table, while the metric row records the raw values. -/
theorem end_to_end_scenario (now : String) (sent recv : ℤ) :
    (∀ th : ℤ, breaches (th : ℚ) th = true) ∧
    (∀ (a : Args) (cpu mem disk : ℚ),
      (logBreachLines a cpu mem disk).length =
        (if (a.cpu_th : ℚ) ≤ cpu then 1 else 0) +
        (if (a.mem_th : ℚ) ≤ mem then 1 else 0) +
        (if (a.disk_th : ℚ) ≤ disk then 1 else 0) ∧
      (logBreachLines a cpu mem disk).length ≤ 3) ∧
    logBreachLines defaultArgs 0 0 0 = [] ∧
    (logBreachLines defaultArgs 80 80 90).length = 3 ∧
    logBreachLines defaultArgs 85 50 50 = [("WARNING", "High CPU Usage: 85.0%")] ∧
    dbEventRows now defaultArgs 85 50 50 = [⟨now, "WARNING", "High CPU Usage: 85.0%"⟩] ∧
    metricRow now 85 50 50 sent recv = ⟨now, 85, 50, 50, sent, recv⟩ := by
  refine ⟨fun th => by simp [breaches], fun a cpu mem disk => ?_, ?_, ?_, ?_, ?_, rfl⟩
  · unfold logBreachLines
    split_ifs <;> simp
  · norm_num [logBreachLines, defaultArgs]
  · norm_num [logBreachLines, defaultArgs]
  all_goals
  · norm_num [logBreachLines, dbEventRows, defaultArgs, fmtTenths, roundHalfEven,
      round_eq, fmtNatTenths]
    decide

/-- C10: for every tick, the event rows appended to the events table
correspond one-to-one with the breach log lines emitted that tick: the
re-evaluated conditions produce identical severities and identical messages
in both sinks, in the same order. -/
theorem db_rows_match_log_lines (now : String) (a : Args) (cpu mem disk : ℚ) :
    (dbEventRows now a cpu mem disk).map (fun r => (r.level, r.message)) =
      logBreachLines a cpu mem disk := by
  unfold dbEventRows logBreachLines
  split_ifs <;> simp

/-- C9: within one tick, the metric row and every event row carry the
identical timestamp string -- the single `now` captured at the start of the
tick (line 109) before the snapshot is taken. -/
theorem tick_timestamp_uniform (now : String) (a : Args) (cpu mem disk : ℚ)
    (sent recv : ℤ) :
    (metricRow now cpu mem disk sent recv).ts = now ∧
    ((dbEventRows now a cpu mem disk).all fun e => e.ts == now) = true := by
  refine ⟨rfl, ?_⟩
  unfold dbEventRows
  split_ifs <;> simp

/-- C3 (code-bug evidence): the startup path performs no validation of flag
values, so a configuration with the negative threshold cpu_th = -5 is
accepted and the loop is entered; once running, even a 0.0% CPU reading
breaches the negative threshold and emits a warning every tick. The claim
says such values are rejected at startup, before RUNNING. -/
theorem negative_threshold_accepted :
    startupCheck { defaultArgs with cpu_th := -5 } =
      Except.ok { defaultArgs with cpu_th := -5 } ∧
    logBreachLines { defaultArgs with cpu_th := -5 } 0 0 0 =
      [("WARNING", "High CPU Usage: 0.0%")] := by
  refine ⟨rfl, ?_⟩
  norm_num [logBreachLines, defaultArgs, fmtTenths, roundHalfEven, round_eq,
    fmtNatTenths]
  decide

/-- Running `init_db` on a schema that already has both tables returns the
schema unchanged and does not error. -/
theorem init_db_of_mem (s : Schema) (hm : "metrics" ∈ s.tables)
    (he : "events" ∈ s.tables) : init_db s = Except.ok s := by
  simp [init_db, createTable, hm, he, Except.bind]

/-- `init_db` always succeeds and its result contains both tables. -/
theorem init_db_ok (s : Schema) :
    ∃ s', init_db s = Except.ok s' ∧ "metrics" ∈ s'.tables ∧ "events" ∈ s'.tables := by
  unfold init_db createTable
  by_cases hm : "metrics" ∈ s.tables <;> by_cases he : "events" ∈ s.tables <;>
    simp [hm, he, Except.bind]

/-- C8: store initialization is idempotent. It never errors, running it a
second time on the resulting schema changes nothing (no duplicated
tables), and on a fresh location it leaves exactly the two tables
metrics and events. -/
theorem init_db_idempotent :
    (∀ s : Schema, ∃ s' : Schema, init_db s = Except.ok s') ∧
    (∀ s : Schema, (init_db s).bind init_db = init_db s) ∧
    init_db ⟨[]⟩ = Except.ok ⟨["metrics", "events"]⟩ := by
  refine ⟨fun s => ?_, fun s => ?_, rfl⟩
  · obtain ⟨s', h, _, _⟩ := init_db_ok s
    exact ⟨s', h⟩
  · obtain ⟨s', h, hm, he⟩ := init_db_ok s
    rw [h]
    show init_db s' = Except.ok s'
    exact init_db_of_mem s' hm he

/-- Statements that contain no commit leave the committed (crash-visible)
rows unchanged. -/
theorem runOps_no_commit (c : Conn) (l : List Op) :
    Op.commit ∉ l →
    (runOps c l).committedMetrics = c.committedMetrics ∧
    (runOps c l).committedEvents = c.committedEvents := by
  induction l generalizing c with
  | nil => exact fun _ => ⟨rfl, rfl⟩
  | cons op rest ih =>
    intro h
    simp only [List.mem_cons, not_or] at h
    obtain ⟨h1, h2⟩ := h
    cases op with
    | insertMetric r => exact ih _ h2
    | insertEvent r => exact ih _ h2
    | commit => exact absurd rfl h1

/-- Event inserts accumulate in the open transaction. -/
theorem runOps_events (c : Conn) (evs : List EventRow) :
    runOps c (evs.map Op.insertEvent) =
      { c with pendingEvents := c.pendingEvents ++ evs } := by
  induction evs generalizing c with
  | nil => simp [runOps]
  | cons e rest ih =>
    show runOps (execOp c (Op.insertEvent e)) (rest.map Op.insertEvent) = _
    rw [ih]
    simp [execOp]

/-- The statements before the commit of a tick are all inserts. -/
theorem commit_not_mem_inserts (now : String) (a : Args) (cpu mem disk : ℚ)
    (sent recv : ℤ) :
    Op.commit ∉ Op.insertMetric (metricRow now cpu mem disk sent recv) ::
      (dbEventRows now a cpu mem disk).map Op.insertEvent := by
  simp [List.mem_cons, List.mem_map]

/-- C4: a tick's persistence is atomic. If the tick is cut off anywhere
before its single final commit (any proper prefix of its statements), no
row of the tick is visible; after the full tick, the metric row and all of
the tick's event rows are visible. -/
theorem tick_atomicity (c : Conn) (now : String) (a : Args) (cpu mem disk : ℚ)
    (sent recv : ℤ) (hm : c.pendingMetrics = []) (he : c.pendingEvents = []) :
    (∀ k : ℕ, k < (tickOps now a cpu mem disk sent recv).length →
      (runOps c ((tickOps now a cpu mem disk sent recv).take k)).committedMetrics
        = c.committedMetrics ∧
      (runOps c ((tickOps now a cpu mem disk sent recv).take k)).committedEvents
        = c.committedEvents) ∧
    (runOps c (tickOps now a cpu mem disk sent recv)).committedMetrics
      = c.committedMetrics ++ [metricRow now cpu mem disk sent recv] ∧
    (runOps c (tickOps now a cpu mem disk sent recv)).committedEvents
      = c.committedEvents ++ dbEventRows now a cpu mem disk := by
  have hsplit : tickOps now a cpu mem disk sent recv =
      (Op.insertMetric (metricRow now cpu mem disk sent recv) ::
        (dbEventRows now a cpu mem disk).map Op.insertEvent) ++ [Op.commit] := by
    simp [tickOps]
  have hrun : runOps c (tickOps now a cpu mem disk sent recv) =
      ⟨c.committedMetrics ++ [metricRow now cpu mem disk sent recv],
        c.committedEvents ++ dbEventRows now a cpu mem disk, [], []⟩ := by
    rw [hsplit, runOps, List.foldl_append]
    show List.foldl execOp
        (runOps (execOp c (Op.insertMetric (metricRow now cpu mem disk sent recv)))
          ((dbEventRows now a cpu mem disk).map Op.insertEvent)) [Op.commit] = _
    rw [runOps_events]
    simp [execOp, hm, he]
  refine ⟨fun k hk => ?_, by rw [hrun], by rw [hrun]⟩
  have hk' : k ≤ (Op.insertMetric (metricRow now cpu mem disk sent recv) ::
      (dbEventRows now a cpu mem disk).map Op.insertEvent).length := by
    rw [hsplit] at hk
    simp only [List.length_append, List.length_cons, List.length_map,
      List.length_nil] at hk
    simp only [List.length_cons, List.length_map]
    omega
  rw [hsplit, List.take_append_of_le_length hk']
  refine runOps_no_commit c _ (fun hc => ?_)
  exact commit_not_mem_inserts now a cpu mem disk sent recv (List.take_subset _ _ hc)

/-- Witness for `tick_atomicity`: a full tick on a fresh connection leaves
exactly its metric row visible. -/
theorem tick_atomicity_witness :
    (runOps ⟨[], [], [], []⟩ (tickOps "t" defaultArgs 0 0 0 0 0)).committedMetrics
      = [metricRow "t" 0 0 0 0 0] := by
  have h := tick_atomicity ⟨[], [], [], []⟩ "t" defaultArgs 0 0 0 0 0 rfl rfl
  simpa using h.2.1

/-- The loop recursion returns `k + 1` for the least tick index `k` whose
completion time `k * s` meets or exceeds the duration, given enough fuel. -/
theorem loopAux_spec (d s : ℤ) (fuel : ℕ) :
    ∀ (k0 k : ℕ), k0 ≤ k → d ≤ (k : ℤ) * s →
      (∀ j : ℕ, k0 ≤ j → j < k → ¬ d ≤ (j : ℤ) * s) → k ≤ k0 + fuel →
      loopAux d s fuel k0 = k + 1 := by
  induction fuel with
  | zero =>
    intro k0 k h1 _ _ h4
    have hk : k = k0 := by omega
    subst hk
    rfl
  | succ f ih =>
    intro k0 k h1 h2 h3 h4
    by_cases hc : d ≤ (k0 : ℤ) * s
    · have hk : k = k0 := by
        by_contra hne
        exact h3 k0 le_rfl (lt_of_le_of_ne h1 (Ne.symm hne)) hc
      subst hk
      show (if d ≤ (k : ℤ) * s then k + 1 else loopAux d s f (k + 1)) = k + 1
      rw [if_pos hc]
    · have hne : k0 ≠ k := fun e => hc (e ▸ h2)
      show (if d ≤ (k0 : ℤ) * s then k0 + 1 else loopAux d s f (k0 + 1)) = k + 1
      rw [if_neg hc]
      exact ih (k0 + 1) k (by omega) h2
        (fun j hj hjk => h3 j (by omega) hjk) (by omega)

/-- C2 counterexample: with duration 12 and interval 5 the loop does not
execute exactly 3 ticks. After the third tick only 10 seconds have elapsed,
which is below the duration, so the line-149 check does not stop the loop
and a fourth tick starts at t = 15. -/
theorem duration12_interval5_not_three_ticks : numTicks 12 5 ≠ 3 := by decide

/-- C2 amended: the loop stops after the first tick whose dispatch completes
with elapsed wall-clock time since start meeting or exceeding the
configured duration, never interrupting a tick in progress; with
duration 12 and interval 5 this means exactly 4 ticks (at t = 0, 5, 10,
15), the loop stopping after the fourth. -/
theorem loop_stops_after_first_elapsed_tick (d i : ℤ) (k : ℕ)
    (h1 : d ≤ (k : ℤ) * max 1 i)
    (h2 : ∀ j : ℕ, j < k → ¬ d ≤ (j : ℤ) * max 1 i) :
    numTicks d i = k + 1 ∧ numTicks 12 5 = 4 := by
  refine ⟨?_, by decide⟩
  apply loopAux_spec d (max 1 i) d.toNat 0 k (Nat.zero_le k) h1
    (fun j _ hjk => h2 j hjk)
  by_contra hgt
  push_neg at hgt
  refine h2 d.toNat (by omega) ?_
  have ha : d ≤ (d.toNat : ℤ) := Int.self_le_toNat d
  have hb : (d.toNat : ℤ) ≤ (d.toNat : ℤ) * max 1 i :=
    le_mul_of_one_le_right (by positivity) (le_max_left 1 i)
  exact ha.trans hb

/-- Witness for `loop_stops_after_first_elapsed_tick` at duration 12 and
interval 5: tick 3 (the fourth) is the first to finish at or past the
duration. -/
theorem loop_stops_witness : numTicks 12 5 = 3 + 1 :=
  (loop_stops_after_first_elapsed_tick 12 5 3 (by norm_num) (by decide)).1

/-- The division loop of `human_bytes` returns the input scaled by
`1024 ^ i` for the final unit index `i`, which is the least index at which
the scaled value drops below 1024, capped at 4 (the TB unit). -/
theorem humanLoopAux_spec (fuel : ℕ) :
    ∀ (f : ℚ) (i : ℕ), i + fuel = 4 →
      i ≤ (humanLoopAux fuel f i).2 ∧
      (humanLoopAux fuel f i).1 = f / 1024 ^ ((humanLoopAux fuel f i).2 - i) ∧
      ((humanLoopAux fuel f i).1 < 1024 ∨ (humanLoopAux fuel f i).2 = 4) ∧
      ((humanLoopAux fuel f i).2 = i ∨
        1024 ≤ f / 1024 ^ ((humanLoopAux fuel f i).2 - 1 - i)) := by
  induction fuel with
  | zero =>
    intro f i h
    have hi : i = 4 := by omega
    subst hi
    simp [humanLoopAux]
  | succ fl ih =>
    intro f i h
    by_cases hc : 1024 ≤ f ∧ i < 4
    · have hrw : humanLoopAux (fl + 1) f i = humanLoopAux fl (f / 1024) (i + 1) := by
        simp [humanLoopAux, hc]
      rw [hrw]
      obtain ⟨hle, hsp, hbound, hlast⟩ := ih (f / 1024) (i + 1) (by omega)
      refine ⟨by omega, ?_, hbound, ?_⟩
      · rw [hsp, div_div, ← pow_succ',
          show (humanLoopAux fl (f / 1024) (i + 1)).2 - (i + 1) + 1 =
            (humanLoopAux fl (f / 1024) (i + 1)).2 - i from by omega]
      · by_cases hp : (humanLoopAux fl (f / 1024) (i + 1)).2 = i + 1
        · right
          rw [hp, show i + 1 - 1 - i = 0 from by omega, pow_zero, div_one]
          exact hc.1
        · right
          rcases hlast with hl | hl
          · exact absurd hl hp
          · rw [div_div, ← pow_succ',
              show (humanLoopAux fl (f / 1024) (i + 1)).2 - 1 - (i + 1) + 1 =
                (humanLoopAux fl (f / 1024) (i + 1)).2 - 1 - i from by omega] at hl
            exact hl
    · have hrw : humanLoopAux (fl + 1) f i = (f, i) := by
        simp only [humanLoopAux, if_neg hc]
      rw [hrw]
      refine ⟨le_rfl, by simp, ?_, Or.inl rfl⟩
      left
      push_neg at hc
      have hi : i < 4 := by omega
      exact not_le.mp (fun hf => absurd (hc hf) (by omega))

/-- C7: the byte formatter divides by 1024 repeatedly, selecting the
largest unit (equivalently, the least unit index at which the scaled value
is below 1024, capped at the TB index 4); it renders with no decimal when
the scaled value is at least 10 or is whole, and with one decimal place
otherwise; and concretely 0 renders as "0 B", 1536 as "1.5 KB", 1048576 as
"1 MB" and 15*1024 as "15 KB". -/
theorem human_bytes_spec :
    human_bytes 0 = "0 B" ∧
    human_bytes 1536 = "1.5 KB" ∧
    human_bytes 1048576 = "1 MB" ∧
    human_bytes (15 * 1024) = "15 KB" ∧
    ∀ n : ℤ,
      (humanState n).1 = (n : ℚ) / 1024 ^ (humanState n).2 ∧
      ((humanState n).1 < 1024 ∨ (humanState n).2 = 4) ∧
      ((humanState n).2 = 0 ∨ 1024 ≤ (n : ℚ) / 1024 ^ ((humanState n).2 - 1)) ∧
      (10 ≤ (humanState n).1 ∨ pyIsInt (humanState n).1 →
        human_bytes n =
          toString (pyInt (humanState n).1) ++ " " ++ unitName (humanState n).2) ∧
      (¬(10 ≤ (humanState n).1 ∨ pyIsInt (humanState n).1) →
        human_bytes n =
          fmtTenths (humanState n).1 ++ " " ++ unitName (humanState n).2) := by
  refine ⟨?_, ?_, ?_, ?_, fun n => ?_⟩
  · have h : humanState 0 = (0, 0) := by norm_num [humanState, humanLoopAux]
    unfold human_bytes
    rw [h]
    norm_num [pyIsInt, pyInt, unitName]
    decide
  · have h : humanState 1536 = (3 / 2, 1) := by norm_num [humanState, humanLoopAux]
    unfold human_bytes
    rw [h]
    norm_num [pyIsInt, pyInt, fmtTenths, roundHalfEven, round_eq, fmtNatTenths,
      unitName]
    decide
  · have h : humanState 1048576 = (1, 2) := by norm_num [humanState, humanLoopAux]
    unfold human_bytes
    rw [h]
    norm_num [pyIsInt, pyInt, unitName]
    decide
  · have h : humanState (15 * 1024) = (15, 1) := by
      norm_num [humanState, humanLoopAux]
    unfold human_bytes
    rw [h]
    norm_num [pyIsInt, pyInt, unitName]
    decide
  · obtain ⟨hle, hsp, hbound, hlast⟩ :=
      humanLoopAux_spec 4 ((n : ℤ) : ℚ) 0 rfl
    refine ⟨?_, hbound, ?_, fun hr => ?_, fun hr => ?_⟩
    · simpa [humanState] using hsp
    · rcases hlast with hl | hl
      · exact Or.inl hl
      · exact Or.inr (by simpa [humanState] using hl)
    · show (if 10 ≤ (humanState n).1 ∨ pyIsInt (humanState n).1 then _ else _) = _
      rw [if_pos hr]
    · show (if 10 ≤ (humanState n).1 ∨ pyIsInt (humanState n).1 then _ else _) = _
      rw [if_neg hr]

/-- Witness for `human_bytes_spec`: for 2048 bytes the loop state is the
whole number 2 at unit KB, so the no-decimal rendering branch applies. -/
theorem human_bytes_spec_witness :
    human_bytes 2048 =
      toString (pyInt (humanState 2048).1) ++ " " ++ unitName (humanState 2048).2 := by
  apply (human_bytes_spec.2.2.2.2 2048).2.2.2.1
  have h : humanState 2048 = (2, 1) := by norm_num [humanState, humanLoopAux]
  rw [h]
  norm_num [pyIsInt]
